import Mathlib

/-!
Verification of the resilience layer of the `market-news` repository:
the TTL cache with rate-limit fallback (`CacheMixin` in
`market_news_generator/cache_mixin.py`) and the provider fallback chain
(`EnhancedMarketDataProvider` in `market_news_generator/enhanced_market_data.py`).

The Python code is shallowly embedded: the cache (a Python dict) becomes an
association list with dict update semantics, wall-clock times and TTLs become
`Int`, a fetch attempt is an explicit outcome (`success` carrying an optional
payload, or `failure` carrying the exception message), and `_cachedCall`
becomes a pure function from the current cache state to an outcome, the new
cache state, and a flag recording whether the underlying fetch was invoked.
-/

namespace MarketNews

/-- A cache entry, mirroring the dict
`{"data": ..., "expires_at": ..., "created_at": ...}` built by `_setCached`. -/
structure CacheEntry (α : Type) where
  data : α
  expires_at : Int
  created_at : Int
deriving DecidableEq, Repr

/-- The cache `self._cache`: a Python dict from string keys to entries,
embedded as an association list with dict update semantics. -/
abbrev Cache (α : Type) := List (String × CacheEntry α)

/-- Default TTL `self._default_ttl = 300`. -/
def default_ttl : Int := 300

/-- Ordering used by Python's `sorted(kwargs.items())`: lexicographic on the
(key, value) pair of strings. -/
def kvLe (p q : String × String) : Prop :=
  p.1 < q.1 ∨ (p.1 = q.1 ∧ p.2 ≤ q.2)

instance : DecidableRel kvLe := fun p q => by
  unfold kvLe; infer_instance

instance : IsTotal (String × String) kvLe := by
  constructor
  intro a b
  rcases lt_trichotomy a.1 b.1 with h | h | h
  · exact Or.inl (Or.inl h)
  · rcases le_total a.2 b.2 with h2 | h2
    · exact Or.inl (Or.inr ⟨h, h2⟩)
    · exact Or.inr (Or.inr ⟨h.symm, h2⟩)
  · exact Or.inr (Or.inl h)

instance : IsTrans (String × String) kvLe := by
  constructor
  intro a b c hab hbc
  rcases hab with h1 | ⟨e1, le1⟩ <;> rcases hbc with h2 | ⟨e2, le2⟩
  · exact Or.inl (lt_trans h1 h2)
  · exact Or.inl (lt_of_lt_of_eq h1 e2)
  · exact Or.inl (lt_of_eq_of_lt e1 h2)
  · exact Or.inr ⟨e1.trans e2, le_trans le1 le2⟩

instance : IsAntisymm (String × String) kvLe := by
  constructor
  intro a b hab hba
  rcases hab with h1 | ⟨e1, le1⟩
  · rcases hba with h2 | ⟨e2, _⟩
    · exact absurd h2 (lt_asymm h1)
    · exact absurd (lt_of_lt_of_eq h1 e2) (lt_irrefl _)
  · rcases hba with h2 | ⟨e2, le2⟩
    · exact absurd (lt_of_lt_of_eq h2 e1) (lt_irrefl _)
    · cases a; cases b
      simp only [Prod.mk.injEq]
      exact ⟨e1, le_antisymm le1 le2⟩

/-- Source `_getCacheKey`: `"|".join([methodName] + [str(a) for a in args]
+ [f"{k}={v}" for k, v in sorted(kwargs.items())])`. -/
def getCacheKey (methodName : String) (args : List String)
    (kwargs : List (String × String)) : String :=
  String.intercalate "|"
    (methodName ::
      (args ++ (List.insertionSort kvLe kwargs).map (fun kv => kv.1 ++ "=" ++ kv.2)))

/-- Source `_isExpired`: `time.time() > entry["expires_at"]`. -/
def isExpired (now : Int) (entry : CacheEntry α) : Bool :=
  decide (entry.expires_at < now)

/-- Source `_evictExpired`: delete every entry with `currentTime > entry["expires_at"]`. -/
def evictExpired (now : Int) (cache : Cache α) : Cache α :=
  cache.filter (fun kv => !isExpired now kv.2)

/-- Python dict lookup: `self._cache[cacheKey]` / `cacheKey in self._cache`. -/
def lookupEntry (k : String) : Cache α → Option (CacheEntry α)
  | [] => none
  | kv :: rest => if kv.1 = k then some kv.2 else lookupEntry k rest

/-- Python dict assignment `self._cache[cacheKey] = entry`: replace the entry
at the key if present, otherwise append. -/
def dictInsert (k : String) (e : CacheEntry α) : Cache α → Cache α
  | [] => [(k, e)]
  | kv :: rest => if kv.1 = k then (k, e) :: rest else kv :: dictInsert k e rest

/-- Source `_getCached(cacheKey, allowExpired)`: optionally evict, then return the
entry's data if present and (fresh or allowed stale). Returns the value and
the cache state after the call. -/
def getCached (now : Int) (cacheKey : String) (allowExpired : Bool)
    (cache : Cache α) : Option α × Cache α :=
  let cache1 := if allowExpired then cache else evictExpired now cache
  match lookupEntry cacheKey cache1 with
  | none => (none, cache1)
  | some entry =>
      if allowExpired || !isExpired now entry then (some entry.data, cache1)
      else (none, cache1)

/-- Source `_setCached(cacheKey, data, ttl)`: store with
`expires_at = now + ttl` (TTL defaulting to `default_ttl`), `created_at = now`. -/
def setCached (now : Int) (cacheKey : String) (data : α) (ttl : Option Int)
    (cache : Cache α) : Cache α :=
  dictInsert cacheKey ⟨data, now + ttl.getD default_ttl, now⟩ cache

/-- Outcome of invoking the underlying `methodFunc`: a Python return value
(`none` = Python `None`, "legitimately nothing found") or a raised exception
carrying its message `str(e)`. -/
inductive FetchResult (α : Type) where
  | success : Option α → FetchResult α
  | failure : String → FetchResult α
deriving DecidableEq, Repr

/-- Outcome of `_cachedCall`: a normal return (possibly Python `None`) or a
propagated exception. -/
inductive CallOutcome (α : Type) where
  | value : Option α → CallOutcome α
  | raised : String → CallOutcome α
deriving DecidableEq, Repr

/-- Whether `pat` occurs as a contiguous substring of `s` (Python's `in` on strings). -/
def containsSub (s pat : String) : Bool :=
  (List.range (s.data.length + 1)).any (fun i => pat.data.isPrefixOf (s.data.drop i))

/-- Python's `str.lower()`, character by character. -/
def strToLower (s : String) : String :=
  ⟨s.data.map Char.toLower⟩

/-- The rate-limit classification of `_cachedCall`'s `except` branch:
`errorStr = str(e).lower()` matched against the fixed substring patterns. -/
def isRateLimitError (e : String) : Bool :=
  let errorStr := strToLower e
  containsSub errorStr "429" || containsSub errorStr "rate limit exceeded"
    || containsSub errorStr "too many requests" || containsSub errorStr "rate limited"

/-- The fetch part of `_cachedCall` (the `try`/`except` block, lines 79-101):
on success, store non-`None` results and evict expired entries; on a
rate-limited failure, serve the (possibly stale) entry or `None`; otherwise
re-raise. The `Bool` component records that the fetch was invoked. -/
def cachedCallFetch (now : Int) (cacheKey : String) (fetch : FetchResult α)
    (ttl : Option Int) (cache : Cache α) : CallOutcome α × Cache α × Bool :=
  match fetch with
  | FetchResult.success result =>
    match result with
    | some v =>
        (CallOutcome.value (some v),
          evictExpired now (setCached now cacheKey v ttl cache), true)
    | none => (CallOutcome.value none, cache, true)
  | FetchResult.failure e =>
    if isRateLimitError e then
      match lookupEntry cacheKey cache with
      | some entry => (CallOutcome.value (some entry.data), cache, true)
      | none => (CallOutcome.value none, cache, true)
    else (CallOutcome.raised e, cache, true)

/-- Source `_cachedCall(methodName, methodFunc, *args, ttl, **kwargs)`: serve a fresh
cached entry without fetching, otherwise run the fetch block. Returns the
outcome, the new cache state, and whether the underlying fetch was invoked. -/
def cachedCall (now : Int) (methodName : String) (args : List String)
    (kwargs : List (String × String)) (fetch : FetchResult α) (ttl : Option Int)
    (cache : Cache α) : CallOutcome α × Cache α × Bool :=
  let cacheKey := getCacheKey methodName args kwargs
  match lookupEntry cacheKey cache with
  | some entry =>
      if !isExpired now entry then (CallOutcome.value (some entry.data), cache, false)
      else cachedCallFetch now cacheKey fetch ttl cache
  | none => cachedCallFetch now cacheKey fetch ttl cache

/-- There is a fresh (unexpired) entry under `k` — the condition of the
fast path of `_cachedCall` (lines 73-76). -/
def hasFreshEntry (now : Int) (k : String) (cache : Cache α) : Bool :=
  match lookupEntry k cache with
  | some entry => !isExpired now entry
  | none => false

/-- One public cache operation (`_setCached`, `_getCached`, `_evictExpired`),
together with the clock reading at which it runs. -/
inductive CacheOp (α : Type) where
  | set : Int → String → α → Option Int → CacheOp α
  | get : Int → String → Bool → CacheOp α
  | evict : Int → CacheOp α

/-- Effect of one cache operation on the store. -/
def applyOp (cache : Cache α) : CacheOp α → Cache α
  | CacheOp.set now k v ttl => setCached now k v ttl cache
  | CacheOp.get now k allowExpired => (getCached now k allowExpired cache).2
  | CacheOp.evict now => evictExpired now cache

/-- Effect of a sequence of cache operations, applied left to right. -/
def applyOps (cache : Cache α) (ops : List (CacheOp α)) : Cache α :=
  ops.foldl applyOp cache

/-- The entry invariant of the spec's data model: `expiresAt >= createdAt`. -/
def entryInv (e : CacheEntry α) : Prop :=
  e.created_at ≤ e.expires_at

instance (e : CacheEntry α) : Decidable (entryInv e) :=
  inferInstanceAs (Decidable (e.created_at ≤ e.expires_at))

/-- Every entry of the store satisfies the entry invariant. -/
def cacheInv (cache : Cache α) : Prop :=
  ∀ kv ∈ cache, entryInv kv.2

instance (cache : Cache α) : Decidable (cacheInv cache) :=
  inferInstanceAs (Decidable (∀ kv ∈ cache, entryInv kv.2))

/-- A `set` operation resolves to a non-negative TTL (the `get` and `evict`
operations carry no TTL). -/
def opTtlOk : CacheOp α → Bool
  | CacheOp.set _ _ _ ttl => decide (0 ≤ ttl.getD default_ttl)
  | _ => true

/-- Result of one provider's `getStockPrice(symbol)` as observed by
`EnhancedMarketDataProvider.getStockData`: a returned value (`none` when the
provider found nothing / returned a falsy result) or a raised exception. -/
inductive ProvResult (β : Type) where
  | ok : Option β → ProvResult β
  | exn : ProvResult β
deriving DecidableEq, Repr

/-- Source `EnhancedMarketDataProvider.getStockData`: walk `self.financialProviders`
in priority order, return the first truthy result, swallow exceptions and
empty results, and fall back to `self.mockProvider.getStockData`. -/
def getStockData (financialProviders : List (String → ProvResult β))
    (mockGetStockData : String → β) (symbol : String) : β :=
  match financialProviders with
  | [] => mockGetStockData symbol
  | provider :: rest =>
    match provider symbol with
    | ProvResult.ok (some data) => data
    | _ => getStockData rest mockGetStockData symbol

/-- Result of one provider's `getMultipleStocks(symbols)`: a dict from symbol
to value (containing only the symbols it resolved) or a raised exception. -/
inductive BatchResult (β : Type) where
  | ok : List (String × β) → BatchResult β
  | exn : BatchResult β
deriving DecidableEq, Repr

/-- Dict lookup `symbol in realData` / `realData[symbol]`. -/
def dictGet (k : String) : List (String × β) → Option β
  | [] => none
  | kv :: rest => if kv.1 = k then some kv.2 else dictGet k rest

/-- Source `EnhancedMarketDataProvider.getAllStocks`: batch-fetch through the first
provider, mixing real and mock data per symbol; on no provider or on any
exception, produce every value from the mock provider
(`mockProvider.getAllStocks() = [mockProvider.getStockData(s) for s in symbols]`). -/
def getAllStocks (financialProviders : List (List String → BatchResult β))
    (mockGetStockData : String → β) (symbols : List String) : List β :=
  match financialProviders with
  | [] => symbols.map mockGetStockData
  | provider :: _ =>
    match provider symbols with
    | BatchResult.ok realData =>
        symbols.map (fun symbol =>
          match dictGet symbol realData with
          | some v => v
          | none => mockGetStockData symbol)
    | BatchResult.exn => symbols.map mockGetStockData

/-! ### Helper lemmas -/

theorem lookupEntry_nil (k : String) : lookupEntry k ([] : Cache α) = none := rfl

theorem lookupEntry_cons (k : String) (kv : String × CacheEntry α) (rest : Cache α) :
    lookupEntry k (kv :: rest) =
      if kv.1 = k then some kv.2 else lookupEntry k rest := rfl

theorem dictInsert_nil (k : String) (e : CacheEntry α) : dictInsert k e [] = [(k, e)] := rfl

theorem dictInsert_cons (k : String) (e : CacheEntry α) (kv : String × CacheEntry α)
    (rest : Cache α) :
    dictInsert k e (kv :: rest) =
      if kv.1 = k then (k, e) :: rest else kv :: dictInsert k e rest := rfl

theorem evictExpired_nil (now : Int) : evictExpired now ([] : Cache α) = [] := rfl

theorem evictExpired_cons (now : Int) (kv : String × CacheEntry α) (rest : Cache α) :
    evictExpired now (kv :: rest) =
      if isExpired now kv.2 then evictExpired now rest
      else kv :: evictExpired now rest := by
  rcases Bool.eq_false_or_eq_true (isExpired now kv.2) with hkv | hkv <;>
    simp [evictExpired, List.filter_cons, hkv]

theorem lookupEntry_dictInsert_self (k : String) (e : CacheEntry α) (c : Cache α) :
    lookupEntry k (dictInsert k e c) = some e := by
  induction c with
  | nil => simp [dictInsert_nil, lookupEntry_cons]
  | cons kv rest ih =>
    by_cases hk : kv.1 = k
    · simp [dictInsert_cons, hk, lookupEntry_cons]
    · simp [dictInsert_cons, hk, lookupEntry_cons, ih]

theorem lookupEntry_dictInsert_ne (k k' : String) (e : CacheEntry α) (c : Cache α)
    (h : k' ≠ k) : lookupEntry k' (dictInsert k e c) = lookupEntry k' c := by
  induction c with
  | nil => simp [dictInsert_nil, lookupEntry_cons, lookupEntry_nil, Ne.symm h]
  | cons kv rest ih =>
    by_cases hk : kv.1 = k
    · subst hk
      simp [dictInsert_cons, lookupEntry_cons, Ne.symm h]
    · simp [dictInsert_cons, hk, lookupEntry_cons, ih]

theorem lookupEntry_evictExpired_of_fresh (now : Int) (k : String) (e : CacheEntry α)
    (c : Cache α) (h : lookupEntry k c = some e) (hf : isExpired now e = false) :
    lookupEntry k (evictExpired now c) = some e := by
  induction c with
  | nil => simp [lookupEntry_nil] at h
  | cons kv rest ih =>
    by_cases hk : kv.1 = k
    · rw [lookupEntry_cons, if_pos hk] at h
      injection h with h2
      subst h2
      simp [evictExpired_cons, hf, lookupEntry_cons, hk]
    · rw [lookupEntry_cons, if_neg hk] at h
      rcases Bool.eq_false_or_eq_true (isExpired now kv.2) with hkv | hkv <;>
        simp [evictExpired_cons, hkv, lookupEntry_cons, hk, ih h]

theorem lookupEntry_evict_dictInsert_ne (now : Int) (k k' : String) (e : CacheEntry α)
    (c : Cache α) (h : k' ≠ k) :
    lookupEntry k' (evictExpired now (dictInsert k e c)) =
      lookupEntry k' (evictExpired now c) := by
  induction c with
  | nil =>
    rcases Bool.eq_false_or_eq_true (isExpired now e) with he | he <;>
      simp [dictInsert_nil, evictExpired_nil, evictExpired_cons, he, lookupEntry_cons,
        lookupEntry_nil, Ne.symm h]
  | cons kv rest ih =>
    by_cases hk : kv.1 = k
    · subst hk
      rcases Bool.eq_false_or_eq_true (isExpired now e) with he | he <;>
        rcases Bool.eq_false_or_eq_true (isExpired now kv.2) with hkv | hkv <;>
          simp [dictInsert_cons, evictExpired_cons, he, hkv, lookupEntry_cons, Ne.symm h]
    · rcases Bool.eq_false_or_eq_true (isExpired now kv.2) with hkv | hkv <;>
        simp [dictInsert_cons, hk, evictExpired_cons, hkv, lookupEntry_cons, ih]

theorem mem_dictInsert (kv : String × CacheEntry α) (k : String) (e : CacheEntry α)
    (c : Cache α) (h : kv ∈ dictInsert k e c) : kv = (k, e) ∨ kv ∈ c := by
  induction c with
  | nil => simpa [dictInsert] using h
  | cons kv' rest ih =>
    by_cases hk : kv'.1 = k
    · simp only [dictInsert, if_pos hk, List.mem_cons] at h
      rcases h with h | h
      · exact Or.inl h
      · exact Or.inr (List.mem_cons_of_mem _ h)
    · simp only [dictInsert, if_neg hk, List.mem_cons] at h
      rcases h with h | h
      · exact Or.inr (h ▸ List.mem_cons_self _ _)
      · rcases ih h with h2 | h2
        · exact Or.inl h2
        · exact Or.inr (List.mem_cons_of_mem _ h2)

theorem mem_evictExpired (now : Int) (kv : String × CacheEntry α) (c : Cache α) :
    kv ∈ evictExpired now c ↔ kv ∈ c ∧ isExpired now kv.2 = false := by
  simp [evictExpired, List.mem_filter]

/-- When no fresh entry exists for the key, `_cachedCall` runs its fetch block. -/
theorem cachedCall_miss (now : Int) (mn : String) (args : List String)
    (kwargs : List (String × String)) (fetch : FetchResult α) (ttl : Option Int)
    (c : Cache α) (hmiss : hasFreshEntry now (getCacheKey mn args kwargs) c = false) :
    cachedCall now mn args kwargs fetch ttl c =
      cachedCallFetch now (getCacheKey mn args kwargs) fetch ttl c := by
  cases hl : lookupEntry (getCacheKey mn args kwargs) c with
  | none => simp [cachedCall, hl]
  | some entry =>
    have hexp : isExpired now entry = true := by
      have h2 := hmiss
      simp [hasFreshEntry, hl] at h2
      exact h2
    simp [cachedCall, hl, hexp]

/-- C1: if the underlying fetch raises a rate-limited failure, `_cachedCall`
returns the cached value for the key whenever any entry exists (fresh or
stale), returns `none` when no entry exists, never raises on this path, and
leaves the cache unchanged (no eviction or write). -/
theorem cachedCall_rate_limited_serves_stale (now : Int) (mn : String)
    (args : List String) (kwargs : List (String × String)) (e : String)
    (ttl : Option Int) (c : Cache α)
    (hmiss : hasFreshEntry now (getCacheKey mn args kwargs) c = false)
    (hrl : isRateLimitError e = true) :
    cachedCall now mn args kwargs (FetchResult.failure e) ttl c =
      ((match lookupEntry (getCacheKey mn args kwargs) c with
        | some entry => CallOutcome.value (some entry.data)
        | none => CallOutcome.value none), c, true) := by
  rw [cachedCall_miss now mn args kwargs _ ttl c hmiss]
  cases hl : lookupEntry (getCacheKey mn args kwargs) c with
  | none => simp [cachedCallFetch, hrl, hl]
  | some entry => simp [cachedCallFetch, hrl, hl]

/-- Witness for C1 at the spec's concrete scenario: a stale entry for the key
is served unchanged on a rate-limited fetch, and the cache is untouched. -/
theorem cachedCall_rate_limited_serves_stale_witness :
    hasFreshEntry 6 (getCacheKey "getStockPrice" ["AAPL"] [])
        [(getCacheKey "getStockPrice" ["AAPL"] [], (⟨100, 5, 0⟩ : CacheEntry Nat))] = false
    ∧ isRateLimitError "429 Too Many Requests" = true
    ∧ cachedCall 6 "getStockPrice" ["AAPL"] []
        (FetchResult.failure "429 Too Many Requests") none
        [(getCacheKey "getStockPrice" ["AAPL"] [], (⟨100, 5, 0⟩ : CacheEntry Nat))] =
      (CallOutcome.value (some 100),
        [(getCacheKey "getStockPrice" ["AAPL"] [], ⟨100, 5, 0⟩)], true) :=
  ⟨by decide, by decide,
    (cachedCall_rate_limited_serves_stale 6 "getStockPrice" ["AAPL"] []
      "429 Too Many Requests" none _ (by decide) (by decide)).trans (by decide)⟩

/-- C4: a fetch failure not classified as rate-limited is propagated unchanged
and the cache state after the call equals the cache state before the call. -/
theorem cachedCall_hard_failure_propagates (now : Int) (mn : String)
    (args : List String) (kwargs : List (String × String)) (e : String)
    (ttl : Option Int) (c : Cache α)
    (hmiss : hasFreshEntry now (getCacheKey mn args kwargs) c = false)
    (hrl : isRateLimitError e = false) :
    cachedCall now mn args kwargs (FetchResult.failure e) ttl c =
      (CallOutcome.raised e, c, true) := by
  rw [cachedCall_miss now mn args kwargs _ ttl c hmiss]
  simp [cachedCallFetch, hrl]

/-- Witness for C4: a "connection refused" failure is re-raised as-is and the
stale entry under another key is left in place. -/
theorem cachedCall_hard_failure_propagates_witness :
    hasFreshEntry 6 (getCacheKey "getStockPrice" ["AAPL"] [])
        [("other", (⟨100, 5, 0⟩ : CacheEntry Nat))] = false
    ∧ isRateLimitError "connection refused" = false
    ∧ cachedCall 6 "getStockPrice" ["AAPL"] [] (FetchResult.failure "connection refused")
        none [("other", (⟨100, 5, 0⟩ : CacheEntry Nat))] =
      (CallOutcome.raised "connection refused", [("other", ⟨100, 5, 0⟩)], true) :=
  ⟨by decide, by decide,
    cachedCall_hard_failure_propagates 6 "getStockPrice" ["AAPL"] []
      "connection refused" none _ (by decide) (by decide)⟩

/-- C2 counterexample: with no entry for the key and a stale entry under
another key, a fetch that succeeds with Python `None` ("legitimately nothing
found") leaves the cache exactly as it was: nothing is stored under the key
and the globally-expired entry is not evicted, contradicting the claim that
every successful result is stored and followed by eviction. -/
theorem cachedCall_none_result_not_stored_cex :
    cachedCall 10 "m" [] [] (FetchResult.success (none : Option Nat)) none
        [("other", ⟨99, 0, 0⟩)] =
      (CallOutcome.value none, [("other", ⟨99, 0, 0⟩)], true)
    ∧ lookupEntry (getCacheKey "m" [] [])
        ((cachedCall 10 "m" [] [] (FetchResult.success (none : Option Nat)) none
          [("other", ⟨99, 0, 0⟩)]).2.1) = none
    ∧ isExpired 10 (⟨99, 0, 0⟩ : CacheEntry Nat) = true :=
  ⟨by decide, by decide, by decide⟩

/-- C2 (amended): for a key with no fresh entry, a fetch that succeeds with a
non-`None` result is stored under the key with the resolved TTL (superseding
any previous value), all globally-expired entries are then evicted, and the
result is returned; a fetch that succeeds with `None` returns `None` without
writing to or evicting from the cache. -/
theorem cachedCall_success_stores_then_evicts (now : Int) (mn : String)
    (args : List String) (kwargs : List (String × String)) (v : α)
    (ttl : Option Int) (c : Cache α)
    (hmiss : hasFreshEntry now (getCacheKey mn args kwargs) c = false)
    (hT : 0 ≤ ttl.getD default_ttl) :
    (cachedCall now mn args kwargs (FetchResult.success (some v)) ttl c).1 =
        CallOutcome.value (some v)
    ∧ lookupEntry (getCacheKey mn args kwargs)
        (cachedCall now mn args kwargs (FetchResult.success (some v)) ttl c).2.1 =
        some ⟨v, now + ttl.getD default_ttl, now⟩
    ∧ (∀ k', k' ≠ getCacheKey mn args kwargs →
        lookupEntry k'
            (cachedCall now mn args kwargs (FetchResult.success (some v)) ttl c).2.1 =
          lookupEntry k' (evictExpired now c))
    ∧ cachedCall now mn args kwargs (FetchResult.success none) ttl c =
        (CallOutcome.value none, c, true) := by
  have heq : cachedCall now mn args kwargs (FetchResult.success (some v)) ttl c =
      (CallOutcome.value (some v),
        evictExpired now
          (dictInsert (getCacheKey mn args kwargs)
            ⟨v, now + ttl.getD default_ttl, now⟩ c), true) := by
    rw [cachedCall_miss now mn args kwargs _ ttl c hmiss]
    simp [cachedCallFetch, setCached]
  have hfr : isExpired now (⟨v, now + ttl.getD default_ttl, now⟩ : CacheEntry α) = false := by
    simp only [isExpired, decide_eq_false_iff_not, not_lt]
    omega
  refine ⟨by rw [heq], ?_, ?_, ?_⟩
  · rw [heq]
    exact lookupEntry_evictExpired_of_fresh now _ _ _
      (lookupEntry_dictInsert_self _ _ _) hfr
  · intro k' hk'
    rw [heq]
    exact lookupEntry_evict_dictInsert_ne now _ _ _ _ hk'
  · rw [cachedCall_miss now mn args kwargs _ ttl c hmiss]
    simp [cachedCallFetch]

/-- Witness for the amended C2: a non-`None` result supersedes a stale entry
under the same key with the default TTL, and a stale entry under another key
is evicted. -/
theorem cachedCall_success_stores_then_evicts_witness :
    hasFreshEntry 10 (getCacheKey "m" [] [])
        [(getCacheKey "m" [] [], (⟨1, 5, 0⟩ : CacheEntry Nat)), ("other", ⟨2, 3, 0⟩)] = false
    ∧ (0 : Int) ≤ (none : Option Int).getD default_ttl
    ∧ lookupEntry (getCacheKey "m" [] [])
        (cachedCall 10 "m" [] [] (FetchResult.success (some 42)) none
          [(getCacheKey "m" [] [], (⟨1, 5, 0⟩ : CacheEntry Nat)), ("other", ⟨2, 3, 0⟩)]).2.1 =
        some ⟨42, 310, 10⟩
    ∧ lookupEntry "other"
        (cachedCall 10 "m" [] [] (FetchResult.success (some 42)) none
          [(getCacheKey "m" [] [], (⟨1, 5, 0⟩ : CacheEntry Nat)), ("other", ⟨2, 3, 0⟩)]).2.1 =
        none := by
  have h := cachedCall_success_stores_then_evicts 10 "m" [] [] (42 : Nat) none
    [(getCacheKey "m" [] [], (⟨1, 5, 0⟩ : CacheEntry Nat)), ("other", ⟨2, 3, 0⟩)]
    (by decide) (by decide)
  refine ⟨by decide, by decide, ?_, ?_⟩
  · exact h.2.1.trans (by decide)
  · exact (h.2.2.1 "other" (by decide)).trans (by decide)

/-- C3: with a fresh entry for the key, `_cachedCall` returns the cached value
immediately, does not invoke the underlying fetch and does not change the
cache; consequently, after a call at `t0` caches a value with TTL `T`, a
second call at any `t1` within `T` time units does not invoke the fetch and
returns the cached value: across the two calls the fetch runs exactly once. -/
theorem cachedCall_fresh_hit_no_fetch :
    (∀ (now : Int) (mn : String) (args : List String) (kwargs : List (String × String))
        (fetch : FetchResult α) (ttl : Option Int) (c : Cache α) (entry : CacheEntry α),
      lookupEntry (getCacheKey mn args kwargs) c = some entry →
      isExpired now entry = false →
      cachedCall now mn args kwargs fetch ttl c =
        (CallOutcome.value (some entry.data), c, false))
    ∧ (∀ (t0 t1 T : Int) (mn : String) (args : List String)
        (kwargs : List (String × String)) (v : α) (fetch2 : FetchResult α)
        (ttl2 : Option Int) (c : Cache α),
      lookupEntry (getCacheKey mn args kwargs) c = none →
      0 ≤ T → t0 ≤ t1 → t1 ≤ t0 + T →
      (cachedCall t0 mn args kwargs (FetchResult.success (some v)) (some T) c).2.2 = true
      ∧ cachedCall t1 mn args kwargs fetch2 ttl2
          (cachedCall t0 mn args kwargs (FetchResult.success (some v)) (some T) c).2.1 =
        (CallOutcome.value (some v),
          (cachedCall t0 mn args kwargs (FetchResult.success (some v)) (some T) c).2.1,
          false)) := by
  constructor
  · intro now mn args kwargs fetch ttl c entry hl hf
    simp [cachedCall, hl, hf]
  · intro t0 t1 T mn args kwargs v fetch2 ttl2 c h hT h01 h1T
    have hmiss : hasFreshEntry t0 (getCacheKey mn args kwargs) c = false := by
      simp [hasFreshEntry, h]
    have heq1 : cachedCall t0 mn args kwargs (FetchResult.success (some v)) (some T) c =
        (CallOutcome.value (some v),
          evictExpired t0 (dictInsert (getCacheKey mn args kwargs) ⟨v, t0 + T, t0⟩ c),
          true) := by
      rw [cachedCall_miss t0 mn args kwargs _ (some T) c hmiss]
      simp [cachedCallFetch, setCached]
    have hfr0 : isExpired t0 (⟨v, t0 + T, t0⟩ : CacheEntry α) = false := by
      simp only [isExpired, decide_eq_false_iff_not, not_lt]
      omega
    have hl1 : lookupEntry (getCacheKey mn args kwargs)
        (evictExpired t0 (dictInsert (getCacheKey mn args kwargs) ⟨v, t0 + T, t0⟩ c)) =
        some ⟨v, t0 + T, t0⟩ :=
      lookupEntry_evictExpired_of_fresh t0 _ _ _ (lookupEntry_dictInsert_self _ _ _) hfr0
    have hfr1 : isExpired t1 (⟨v, t0 + T, t0⟩ : CacheEntry α) = false := by
      simp only [isExpired, decide_eq_false_iff_not, not_lt]
      omega
    constructor
    · rw [heq1]
    · rw [heq1]
      simp [cachedCall, hl1, hfr1]

/-- Witness for C3: the spec's scenario with TTL 5 — a call at `t=0` caches the
value and fetches once; a call at `t=3` serves the cache without fetching. -/
theorem cachedCall_fresh_hit_no_fetch_witness :
    lookupEntry (getCacheKey "getStockPrice" ["AAPL"] []) ([] : Cache Nat) = none
    ∧ (cachedCall 0 "getStockPrice" ["AAPL"] [] (FetchResult.success (some 100)) (some 5)
        ([] : Cache Nat)).2.2 = true
    ∧ cachedCall 3 "getStockPrice" ["AAPL"] [] (FetchResult.failure "boom") none
        (cachedCall 0 "getStockPrice" ["AAPL"] [] (FetchResult.success (some 100)) (some 5)
          ([] : Cache Nat)).2.1 =
      (CallOutcome.value (some 100),
        (cachedCall 0 "getStockPrice" ["AAPL"] [] (FetchResult.success (some 100)) (some 5)
          ([] : Cache Nat)).2.1, false) := by
  have h := (cachedCall_fresh_hit_no_fetch (α := Nat)).2 0 3 5 "getStockPrice" ["AAPL"] []
    100 (FetchResult.failure "boom") none [] (by decide) (by decide) (by decide) (by decide)
  exact ⟨by decide, h.1, h.2⟩

/-- C5: `getStockData` returns the first provider's non-empty result without
consulting any later provider (the result is the same for every tail of the
chain after the first success), silently skips providers that return empty or
raise, and falls back to the mock provider's value when every provider yields
empty or fails — it never returns "no data". -/
theorem getStockData_first_success_or_mock :
    (∀ (ps1 : List (String → ProvResult β)) (p : String → ProvResult β)
        (ps2 : List (String → ProvResult β)) (mock : String → β) (s : String) (d : β),
      (∀ q ∈ ps1, q s = ProvResult.exn ∨ q s = ProvResult.ok none) →
      p s = ProvResult.ok (some d) →
      getStockData (ps1 ++ p :: ps2) mock s = d)
    ∧ (∀ (ps : List (String → ProvResult β)) (mock : String → β) (s : String),
      (∀ q ∈ ps, q s = ProvResult.exn ∨ q s = ProvResult.ok none) →
      getStockData ps mock s = mock s) := by
  constructor
  · intro ps1 p ps2 mock s d hskip hp
    induction ps1 with
    | nil => simp [getStockData, hp]
    | cons q rest ih =>
      rcases hskip q (List.mem_cons_self q rest) with hq | hq <;>
        · rw [List.cons_append]
          simp only [getStockData, hq]
          exact ih (fun q' h' => hskip q' (List.mem_cons_of_mem q h'))
  · intro ps mock s hskip
    induction ps with
    | nil => rfl
    | cons q rest ih =>
      rcases hskip q (List.mem_cons_self q rest) with hq | hq <;>
        · simp only [getStockData, hq]
          exact ih (fun q' h' => hskip q' (List.mem_cons_of_mem q h'))

/-- Witness for C5: provider 1 empty, provider 2 returns 5, provider 3 would
fail — the chain returns 5; and a chain whose only provider raises falls back
to the mock value 7. -/
theorem getStockData_first_success_or_mock_witness :
    ((fun _ => ProvResult.ok (some (5 : Nat))) "AAPL" = ProvResult.ok (some 5))
    ∧ getStockData
        [fun _ => ProvResult.ok none, fun _ => ProvResult.ok (some (5 : Nat)),
          fun _ => ProvResult.exn]
        (fun _ => 7) "AAPL" = 5
    ∧ getStockData [fun _ => (ProvResult.exn : ProvResult Nat)] (fun _ => 7) "AAPL" = 7 := by
  refine ⟨rfl, ?_, ?_⟩
  · exact (getStockData_first_success_or_mock (β := Nat)).1
      [fun _ => ProvResult.ok none] (fun _ => ProvResult.ok (some 5))
      [fun _ => ProvResult.exn] (fun _ => 7) "AAPL" 5
      (by
        intro q hq
        rw [List.mem_singleton] at hq
        subst hq
        exact Or.inr rfl)
      rfl
  · exact (getStockData_first_success_or_mock (β := Nat)).2
      [fun _ => ProvResult.exn] (fun _ => 7) "AAPL"
      (by
        intro q hq
        rw [List.mem_singleton] at hq
        subst hq
        exact Or.inl rfl)

/-- C6: `getAllStocks` always returns exactly one value per requested symbol,
in order; when the first provider's batch call succeeds, each position holds
the provider's value for that symbol when present and the mock value
otherwise; with no provider configured every position holds the mock value. -/
theorem getAllStocks_length_and_merge :
    (∀ (providers : List (List String → BatchResult β)) (mock : String → β)
        (symbols : List String),
      (getAllStocks providers mock symbols).length = symbols.length)
    ∧ (∀ (p : List String → BatchResult β) (rest : List (List String → BatchResult β))
        (mock : String → β) (symbols : List String) (m : List (String × β)),
      p symbols = BatchResult.ok m →
      getAllStocks (p :: rest) mock symbols =
        symbols.map (fun s => (dictGet s m).getD (mock s)))
    ∧ (∀ (mock : String → β) (symbols : List String),
      getAllStocks ([] : List (List String → BatchResult β)) mock symbols =
        symbols.map mock) := by
  refine ⟨?_, ?_, fun mock symbols => rfl⟩
  · intro providers mock symbols
    cases providers with
    | nil => simp [getAllStocks]
    | cons p rest =>
      cases hp : p symbols with
      | ok m => simp [getAllStocks, hp]
      | exn => simp [getAllStocks, hp]
  · intro p rest mock symbols m hp
    simp only [getAllStocks, hp]
    have hfun : (fun symbol =>
        match dictGet symbol m with
        | some v => v
        | none => mock symbol) = fun s => (dictGet s m).getD (mock s) := by
      funext s
      cases dictGet s m <;> rfl
    rw [hfun]

/-- Witness for C6: the spec's partial-merge scenario — the provider resolves
only AAPL out of [AAPL, MSFT], and the batch returns the provider's AAPL value
with the mock MSFT value, length 2, order preserved. -/
theorem getAllStocks_length_and_merge_witness :
    ((fun _ => BatchResult.ok [("AAPL", (100 : Nat))]) ["AAPL", "MSFT"] =
      BatchResult.ok [("AAPL", 100)])
    ∧ (getAllStocks [fun _ => BatchResult.ok [("AAPL", (100 : Nat))]]
        (fun _ => 7) ["AAPL", "MSFT"]).length = 2
    ∧ getAllStocks [fun _ => BatchResult.ok [("AAPL", (100 : Nat))]]
        (fun _ => 7) ["AAPL", "MSFT"] = [100, 7] := by
  refine ⟨rfl, ?_, ?_⟩
  · exact (getAllStocks_length_and_merge (β := Nat)).1
      [fun _ => BatchResult.ok [("AAPL", 100)]] (fun _ => 7) ["AAPL", "MSFT"]
  · exact ((getAllStocks_length_and_merge (β := Nat)).2.1
      (fun _ => BatchResult.ok [("AAPL", 100)]) [] (fun _ => 7) ["AAPL", "MSFT"]
      [("AAPL", 100)] rfl).trans (by decide)

/-- C10: when the first provider's batch call raises, `getAllStocks` does not
propagate the exception and performs no per-item merging — every position is
produced by the mock generator, one value per requested symbol. -/
theorem getAllStocks_exn_full_mock_fallback (p : List String → BatchResult β)
    (rest : List (List String → BatchResult β)) (mock : String → β)
    (symbols : List String) (hp : p symbols = BatchResult.exn) :
    getAllStocks (p :: rest) mock symbols = symbols.map mock := by
  simp [getAllStocks, hp]

/-- Witness for C10: a raising batch provider yields the all-mock result. -/
theorem getAllStocks_exn_full_mock_fallback_witness :
    ((fun _ => (BatchResult.exn : BatchResult Nat)) ["AAPL", "MSFT"] = BatchResult.exn)
    ∧ getAllStocks [fun _ => (BatchResult.exn : BatchResult Nat)]
        (fun _ => 7) ["AAPL", "MSFT"] = [7, 7] :=
  ⟨rfl,
    (getAllStocks_exn_full_mock_fallback (fun _ => BatchResult.exn) []
      (fun _ => 7) ["AAPL", "MSFT"] rfl).trans (by decide)⟩

/-- C7: `evictExpired` removes exactly the entries whose expiry is strictly
before `now` — an entry survives iff it was in the cache and is not expired —
keeps the surviving entries unchanged and in order, and is idempotent. -/
theorem evictExpired_exact_and_idempotent :
    (∀ (now : Int) (c : Cache α) (kv : String × CacheEntry α),
      kv ∈ evictExpired now c ↔ kv ∈ c ∧ isExpired now kv.2 = false)
    ∧ (∀ (now : Int) (c : Cache α), (evictExpired now c).Sublist c)
    ∧ (∀ (now : Int) (c : Cache α),
      evictExpired now (evictExpired now c) = evictExpired now c) := by
  refine ⟨fun now c kv => mem_evictExpired now kv c, fun now c => List.filter_sublist c, ?_⟩
  intro now c
  apply List.filter_eq_self.mpr
  intro kv hkv
  have h := (mem_evictExpired now kv c).mp hkv
  simp [h.2]

/-- C8: the cache key does not depend on the order in which keyword arguments
are supplied — any permutation of the keyword-argument list yields the same
key. -/
theorem getCacheKey_kwargs_order_irrelevant (methodName : String) (args : List String)
    (kw1 kw2 : List (String × String)) (h : kw1.Perm kw2) :
    getCacheKey methodName args kw1 = getCacheKey methodName args kw2 := by
  have hs : List.insertionSort kvLe kw1 = List.insertionSort kvLe kw2 :=
    List.eq_of_perm_of_sorted
      (((List.perm_insertionSort kvLe kw1).trans h).trans
        (List.perm_insertionSort kvLe kw2).symm)
      (List.sorted_insertionSort kvLe kw1) (List.sorted_insertionSort kvLe kw2)
  unfold getCacheKey
  rw [hs]

/-- Witness for C8: supplying two keyword arguments in either order produces
the same cache key. -/
theorem getCacheKey_kwargs_order_irrelevant_witness :
    ([("b", "2"), ("a", "1")] : List (String × String)).Perm [("a", "1"), ("b", "2")]
    ∧ getCacheKey "getStockPrice" ["AAPL"] [("b", "2"), ("a", "1")] =
        getCacheKey "getStockPrice" ["AAPL"] [("a", "1"), ("b", "2")] :=
  ⟨by decide,
    getCacheKey_kwargs_order_irrelevant "getStockPrice" ["AAPL"] _ _ (by decide)⟩

/-- The cache state left by `_getCached` is the input cache when stale reads
are allowed, and the evicted cache otherwise. -/
theorem getCached_snd (now : Int) (k : String) (ae : Bool) (c : Cache α) :
    (getCached now k ae c).2 = if ae then c else evictExpired now c := by
  cases ae with
  | false =>
    cases hl : lookupEntry k (evictExpired now c) with
    | none => simp [getCached, hl]
    | some entry =>
      cases hexp : isExpired now entry with
      | false => simp [getCached, hl, hexp]
      | true => simp [getCached, hl, hexp]
  | true =>
    cases hl : lookupEntry k c with
    | none => simp [getCached, hl]
    | some entry => simp [getCached, hl]

/-- C9: an entry written by `_setCached` with a non-negative resolved TTL
(including the default of 300 when no TTL is given) satisfies
`expiresAt >= createdAt`, and the invariant holds for every entry in the store
after any sequence of set, get and evictExpired operations. -/
theorem cache_expiry_invariant :
    (∀ (now : Int) (k : String) (v : α) (ttl : Option Int) (c : Cache α),
      0 ≤ ttl.getD default_ttl → cacheInv c → cacheInv (setCached now k v ttl c))
    ∧ (∀ (ops : List (CacheOp α)) (c : Cache α),
      (∀ op ∈ ops, opTtlOk op = true) → cacheInv c → cacheInv (applyOps c ops)) := by
  have hset : ∀ (now : Int) (k : String) (v : α) (ttl : Option Int) (c : Cache α),
      0 ≤ ttl.getD default_ttl → cacheInv c → cacheInv (setCached now k v ttl c) := by
    intro now k v ttl c hT hc kv hkv
    rcases mem_dictInsert kv k _ c hkv with h | h
    · rw [h]
      simp only [entryInv]
      omega
    · exact hc kv h
  have hevict : ∀ (now : Int) (c : Cache α), cacheInv c → cacheInv (evictExpired now c) :=
    fun now c hc kv hkv => hc kv ((mem_evictExpired now kv c).mp hkv).1
  refine ⟨hset, ?_⟩
  intro ops
  induction ops with
  | nil => intro c _ hc; exact hc
  | cons op rest ih =>
    intro c hops hc
    have h1 : cacheInv (applyOp c op) := by
      cases op with
      | set now k v ttl =>
        apply hset
        · have h2 := hops _ (List.mem_cons_self _ _)
          simpa [opTtlOk] using h2
        · exact hc
      | get now k ae =>
        show cacheInv (getCached now k ae c).2
        rw [getCached_snd]
        cases ae with
        | false => simpa using hevict now c hc
        | true => simpa using hc
      | evict now => exact hevict now c hc
    have h2 : ∀ op' ∈ rest, opTtlOk op' = true :=
      fun op' h' => hops op' (List.mem_cons_of_mem op h')
    exact ih (applyOp c op) h2 h1

/-- Witness for C9: a sequence of a default-TTL write, a fresh read, a late
eviction and an explicit zero-TTL write keeps every stored entry satisfying
`expiresAt >= createdAt`. -/
theorem cache_expiry_invariant_witness :
    (∀ op ∈ [CacheOp.set 0 "k" (42 : Nat) none, CacheOp.get 5 "k" false,
        CacheOp.evict 400, CacheOp.set 2 "j" 7 (some 0)], opTtlOk op = true)
    ∧ cacheInv (applyOps ([] : Cache Nat)
        [CacheOp.set 0 "k" (42 : Nat) none, CacheOp.get 5 "k" false,
          CacheOp.evict 400, CacheOp.set 2 "j" 7 (some 0)]) :=
  ⟨by decide,
    (cache_expiry_invariant (α := Nat)).2
      [CacheOp.set 0 "k" (42 : Nat) none, CacheOp.get 5 "k" false,
        CacheOp.evict 400, CacheOp.set 2 "j" 7 (some 0)] [] (by decide) (by decide)⟩

end MarketNews
